import Mathlib

/-!
Formal model of the core of a small typed JSON-API toolkit: the schema
engine (boolean, date, array schemas with issue aggregation) and the
route-path compiler/matcher.  Pure TypeScript functions are embedded as
Lean functions; JavaScript runtime values relevant to the schemas are
embedded as the inductive `Value`; a `parse` call that can throw is
embedded as a function into `ParseResult`.
-/

namespace YCore

/-- JavaScript runtime values, as far as the validation core observes
them: booleans, numbers (modelled as integers), strings, null,
undefined, Date objects (carrying `some` timestamp, or `none` for the
invalid-date sentinel), arrays and plain objects. -/
inductive Value where
  | vBool (b : Bool)
  | vNum (n : Int)
  | vStr (s : String)
  | vNull
  | vUndefined
  | vDate (t : Option Int)
  | vArr (items : List Value)
  | vObj

/-- The JavaScript `typeof` operator restricted to `Value`
(`typeof null`, arrays, dates and plain objects are all "object"). -/
def typeofValue : Value → String
  | .vBool _ => "boolean"
  | .vNum _ => "number"
  | .vStr _ => "string"
  | .vNull => "object"
  | .vUndefined => "undefined"
  | .vDate _ => "object"
  | .vArr _ => "object"
  | .vObj => "object"

/-- One atomic validation failure: kind, location path, expected and
actual descriptions (all strings, as in the source `Issue` class). -/
structure Issue where
  kind : String
  path : List String
  expected : String
  actual : String
deriving DecidableEq

/-- Ordered aggregate of issues from a single parse call. -/
structure ValidationError where
  issues : List Issue
deriving DecidableEq

/-- Modelled from the spec: `ValidationError.withPrefix` lives in the
error module, which is absent from the sources (only its callers are).
The spec says it "returns a new Issue sequence equal to the input but
with `segment` prepended to each Issue's path, without mutating the
originals". -/
def ValidationError.withPrefix (e : ValidationError) (seg : String) : List Issue :=
  e.issues.map (fun i => Issue.mk i.kind (seg :: i.path) i.expected i.actual)

/-- Outcome of a `parse` call: a value, a thrown `ValidationError`, or a
thrown failure that is not a `ValidationError` (carried opaquely as a
string so that "propagated unchanged" is expressible). -/
inductive ParseResult (α : Type) where
  | ok (value : α)
  | verr (error : ValidationError)
  | other (error : String)
deriving DecidableEq

/-- Whether a parse outcome is a non-`ValidationError` failure. -/
def ParseResult.isOther {α : Type} : ParseResult α → Bool
  | .other _ => true
  | _ => false

/-- The value of a successful parse outcome, if any. -/
def ParseResult.okValue {α : Type} : ParseResult α → Option α
  | .ok a => some a
  | _ => none

/-- `BooleanSchema.parse`: succeed exactly on booleans, otherwise throw
one `invalidType` issue with empty path. -/
def BooleanSchema.parse (obj : Value) : ParseResult Bool :=
  match obj with
  | .vBool b => .ok b
  | _ => .verr ⟨[Issue.mk "invalidType" [] "boolean" (typeofValue obj)]⟩

/-- `ArraySchema`: an item schema (its `parse` function) plus optional
`minItems` / `maxItems` bounds. -/
structure ArraySchema (α : Type) where
  itemSchema : Value → ParseResult α
  minItems : Option Nat
  maxItems : Option Nat

/-- `array(itemSchema)`: an array schema with no bounds. -/
def array {α : Type} (itemSchema : Value → ParseResult α) : ArraySchema α :=
  ArraySchema.mk itemSchema none none

/-- `ArraySchema.min`: a new schema with the minimum bound replaced. -/
def ArraySchema.min {α : Type} (s : ArraySchema α) (items : Nat) : ArraySchema α :=
  ArraySchema.mk s.itemSchema (some items) s.maxItems

/-- `ArraySchema.max`: a new schema with the maximum bound replaced. -/
def ArraySchema.max {α : Type} (s : ArraySchema α) (items : Nat) : ArraySchema α :=
  ArraySchema.mk s.itemSchema s.minItems (some items)

/-- `ArraySchema.length`: a new schema with both bounds set to `items`. -/
def ArraySchema.length {α : Type} (s : ArraySchema α) (items : Nat) : ArraySchema α :=
  ArraySchema.mk s.itemSchema (some items) (some items)

/-- The guard `this.minItems && obj.length < this.minItems` of
`ArraySchema.parse`: JavaScript truthiness makes an unset bound *and* a
bound of `0` skip the check. -/
def checkMin (minItems : Option Nat) (len : Nat) : Option Issue :=
  match minItems with
  | some m =>
    if m ≠ 0 ∧ len < m then some (Issue.mk "tooShort" [] (toString m) (toString len))
    else none
  | none => none

/-- The guard `this.maxItems && obj.length > this.maxItems` of
`ArraySchema.parse`, with the same truthiness behaviour. -/
def checkMax (maxItems : Option Nat) (len : Nat) : Option Issue :=
  match maxItems with
  | some m =>
    if m ≠ 0 ∧ len > m then some (Issue.mk "tooLong" [] (toString m) (toString len))
    else none
  | none => none

/-- The `for` loop of `ArraySchema.parse`, starting at index `i`:
collect parsed elements and prefixed issues of `ValidationError`
failures; a non-`ValidationError` failure aborts the whole loop
(`.inr`), discarding everything collected so far. -/
def itemLoop {α : Type} (p : Value → ParseResult α) (i : Nat) :
    List Value → Sum (List α × List Issue) String
  | [] => Sum.inl ([], [])
  | v :: rest =>
    match p v with
    | .ok a =>
      match itemLoop p (i + 1) rest with
      | .inl r => .inl (a :: r.1, r.2)
      | .inr e => .inr e
    | .verr err =>
      match itemLoop p (i + 1) rest with
      | .inl r => .inl (r.1, err.withPrefix (toString i) ++ r.2)
      | .inr e => .inr e
    | .other e => .inr e

/-- `ArraySchema.parse`: type check, then bounds checks (each
short-circuiting), then the item loop; fail with the union of the
collected issues if any, otherwise return the parsed elements. -/
def ArraySchema.parse {α : Type} (s : ArraySchema α) (obj : Value) : ParseResult (List α) :=
  match obj with
  | .vArr items =>
    match checkMin s.minItems items.length with
    | some iss => .verr ⟨[iss]⟩
    | none =>
      match checkMax s.maxItems items.length with
      | some iss => .verr ⟨[iss]⟩
      | none =>
        match itemLoop s.itemSchema 0 items with
        | .inr e => .other e
        | .inl r => if r.2.length > 0 then .verr ⟨r.2⟩ else .ok r.1
  | _ => .verr ⟨[Issue.mk "invalidType" [] "array" (typeofValue obj)]⟩

/-- Argument of the ambient JavaScript `new Date(x)` call made by
`DateSchema.parse`: a string or a number. -/
abbrev StrNum : Type := Sum String Int

/-- `DateSchema.parse`, parametrised by the ambient `new Date`
behaviour `newDate` (returning `some` timestamp, or `none` when the
constructed date stringifies to "Invalid Date"): a date value is
returned as is; a string or number is accepted iff `newDate` accepts
it; everything else throws `invalidType` with expected "date". -/
def DateSchema.parse (newDate : StrNum → Option Int) (obj : Value) : ParseResult Value :=
  match obj with
  | .vDate t => .ok (.vDate t)
  | .vStr s =>
    match newDate (.inl s) with
    | some t => .ok (.vDate (some t))
    | none => .verr ⟨[Issue.mk "invalidType" [] "date" (typeofValue (Value.vStr s))]⟩
  | .vNum n =>
    match newDate (.inr n) with
    | some t => .ok (.vDate (some t))
    | none => .verr ⟨[Issue.mk "invalidType" [] "date" (typeofValue (Value.vNum n))]⟩
  | _ => .verr ⟨[Issue.mk "invalidType" [] "date" (typeofValue obj)]⟩

/-!
The Path component.  The `path.ts` module itself is absent from the
sources (only its test suite and callers are), so the definitions below
are modelled from the spec: the pattern grammar, the compiled segment
sequence, `toString`, `match` and `withPrefix`, together with the
construction-time fatal errors.  Pattern and candidate strings are
modelled as lists of characters.
-/

/-- Modelled from the spec: one `/`-delimited unit of a Path pattern,
"a tagged variant: Literal(text) | Param(name) | with an orthogonal
`optional` flag". -/
inductive Segment where
  | lit (text : List Char) (opt : Bool)
  | param (name : List Char) (opt : Bool)
deriving DecidableEq

/-- The `optional` flag of a segment. -/
def Segment.optional : Segment → Bool
  | .lit _ o => o
  | .param _ o => o

/-- Modelled from the spec: the construction-time fatal errors of
`Path` — "must start with '/'", a segment not matching the grammar
regex, and the fixed optional-ordering message "Optional segment cannot
be followed by non-optional segment.". -/
inductive PathError where
  | mustStartWithSlash (pattern : List Char)
  | invalidSegment (pattern : List Char) (segment : List Char)
  | optionalOrdering (pattern : List Char)
deriving DecidableEq

/-- Splitting a character list on `/` (the JavaScript
`String.prototype.split('/')`: never returns an empty list, and keeps
empty pieces). -/
def splitOnSlash : List Char → List (List Char)
  | [] => [[]]
  | c :: rest =>
    if c = '/' then [] :: splitOnSlash rest
    else
      match splitOnSlash rest with
      | [] => [[c]]
      | s :: ss => (c :: s) :: ss

/-- Joining on `/`: the inverse of `splitOnSlash`. -/
def joinSlash : List (List Char) → List Char
  | [] => []
  | [s] => s
  | s :: ss => s ++ '/' :: joinSlash ss

/-- A character allowed in the core of a segment, per the grammar regex
`[a-z0-9-]`. -/
def isCoreChar (c : Char) : Bool :=
  c.isLower || c.isDigit || c = '-'

/-- Modelled from the spec: after the first core character of a
segment, parse further core characters followed by an optional trailing
`?`; returns the remaining core text and the optional flag. -/
def parseTail : List Char → Option (List Char × Bool)
  | [] => some ([], false)
  | c :: rest =>
    if c = '?' then (if rest = [] then some ([], true) else none)
    else if isCoreChar c then (parseTail rest).map (fun r => (c :: r.1, r.2))
    else none

/-- Modelled from the spec: a nonempty core `[a-z0-9-]+` followed by an
optional trailing `?`. -/
def parseCore : List Char → Option (List Char × Bool)
  | [] => none
  | c :: rest =>
    if isCoreChar c then (parseTail rest).map (fun r => (c :: r.1, r.2))
    else none

/-- Modelled from the spec: parse one segment of a pattern — "an
optional leading `:` (marks it a named parameter) then an optional
trailing `?` (marks the whole segment as optional)"; the shape is the
regex `^(:?[a-z0-9-]+\??)$`. -/
def parseSegment (s : List Char) : Option Segment :=
  match s with
  | c :: rest =>
    if c = ':' then (parseCore rest).map (fun r => Segment.param r.1 r.2)
    else (parseCore (c :: rest)).map (fun r => Segment.lit r.1 r.2)
  | [] => none

/-- Modelled from the spec: parse every segment of the split pattern,
failing on the first segment that does not match the grammar. -/
def segmentsOf (pattern : List Char) : List (List Char) → Except PathError (List Segment)
  | [] => .ok []
  | part :: rest =>
    match parseSegment part with
    | none => .error (PathError.invalidSegment pattern part)
    | some seg =>
      match segmentsOf pattern rest with
      | .error e => .error e
      | .ok segs => .ok (seg :: segs)

/-- Modelled from the spec: the ordering invariant — "once one segment
is optional, every following segment must be optional". -/
def optionalOk : List Segment → Bool
  | [] => true
  | s :: rest => if s.optional then rest.all Segment.optional else optionalOk rest

/-- Modelled from the spec: a compiled Path owns an ordered sequence of
segments. -/
structure Path where
  segments : List Segment
deriving DecidableEq

/-- Modelled from the spec: `Path` construction — the pattern must
start with `/`; the remainder is split on `/` and each piece parsed as
a segment; the segment sequence must satisfy the optional-ordering
invariant; any violation is a construction-time fatal error. -/
def Path.build (pattern : List Char) : Except PathError Path :=
  match pattern with
  | c :: rest =>
    if c = '/' then
      match segmentsOf (c :: rest) (splitOnSlash rest) with
      | .error e => .error e
      | .ok segs =>
        if optionalOk segs then .ok (Path.mk segs)
        else .error (PathError.optionalOrdering (c :: rest))
    else .error (PathError.mustStartWithSlash (c :: rest))
  | [] => .error (PathError.mustStartWithSlash [])

/-- Modelled from the spec: render one compiled segment back to its
pattern text, with its leading `/`. -/
def Segment.render : Segment → List Char
  | .lit t o => '/' :: (t ++ if o then ['?'] else [])
  | .param n o => '/' :: ':' :: (n ++ if o then ['?'] else [])

/-- Modelled from the spec: `Path.toString` reconstructs the original
pattern string from the compiled segment sequence. -/
def Path.toString (p : Path) : List Char :=
  (p.segments.map Segment.render).flatten

/-- Modelled from the spec: the left-to-right scan of `match` —
required pattern segment without a candidate segment fails; an optional
segment reached with the candidate exhausted stops successfully;
literal segments must match exactly; parameter segments capture the
candidate text; leftover candidate segments fail. -/
def matchSegs : List Segment → List (List Char) → Option (List (List Char × List Char))
  | [], [] => some []
  | [], _ :: _ => none
  | s :: _, [] => if s.optional then some [] else none
  | s :: segs, c :: cs =>
    match s with
    | .lit t _ => if t = c then matchSegs segs cs else none
    | .param n _ => (matchSegs segs cs).map (fun r => (n, c) :: r)

/-- Modelled from the spec: `Path.match` — split the candidate the same
way as a pattern (so a candidate not starting with `/` never matches)
and scan; on success return the parameter-name/captured-text mapping. -/
def Path.matchPath (p : Path) (candidate : List Char) : Option (List (List Char × List Char)) :=
  match candidate with
  | c :: rest => if c = '/' then matchSegs p.segments (splitOnSlash rest) else none
  | [] => none

/-- Modelled from the spec: `Path.withPrefix` — build the prefix
pattern, prepend its segments, and re-validate the combined sequence
against the optional-ordering invariant. -/
def Path.withPrefix (p : Path) (pre : List Char) : Except PathError Path :=
  match Path.build pre with
  | .error e => .error e
  | .ok q =>
    if optionalOk (q.segments ++ p.segments) then .ok (Path.mk (q.segments ++ p.segments))
    else .error (PathError.optionalOrdering (Path.toString (Path.mk (q.segments ++ p.segments))))

/-- Claim-side description of the array schema's issue aggregation: for
each item (indexed from `i`) whose item-schema parse fails with a
`ValidationError`, all of that error's issues with the item's decimal
index prepended, concatenated in item order. -/
def collectedIssues {α : Type} (p : Value → ParseResult α) (i : Nat) : List Value → List Issue
  | [] => []
  | v :: rest =>
    (match p v with
     | .verr err => err.withPrefix (toString i)
     | _ => []) ++ collectedIssues p (i + 1) rest

/-- Claim-side description of one capture of the path matcher: a
parameter segment paired with a candidate segment captures the
candidate text under the parameter name; a literal captures nothing. -/
def captureOf : Segment × List Char → Option (List Char × List Char)
  | (Segment.param n _, c) => some (n, c)
  | (Segment.lit _ _, _) => none

/-- An item schema that throws a non-`ValidationError` failure on
`null` and otherwise behaves as the boolean schema. -/
def boomSchema : Value → ParseResult Bool :=
  fun v =>
    match v with
    | Value.vNull => ParseResult.other "boom"
    | w => BooleanSchema.parse w

theorem itemLoop_no_other {α : Type} (p : Value → ParseResult α) (items : List Value)
    (h : ∀ v ∈ items, (p v).isOther = false) (i : Nat) :
    itemLoop p i items =
      Sum.inl (items.filterMap (fun v => (p v).okValue), collectedIssues p i items) := by
  induction items generalizing i with
  | nil => rfl
  | cons v rest ih =>
    have hv : (p v).isOther = false := h v (List.mem_cons_self v rest)
    have hrest : ∀ u ∈ rest, (p u).isOther = false :=
      fun u hu => h u (List.mem_cons_of_mem v hu)
    cases hp : p v with
    | ok a =>
      simp [itemLoop, hp, ih hrest (i + 1), collectedIssues, ParseResult.okValue]
    | verr err =>
      simp [itemLoop, hp, ih hrest (i + 1), collectedIssues, ParseResult.okValue]
    | other e =>
      rw [hp] at hv
      simp [ParseResult.isOther] at hv

theorem itemLoop_first_other {α : Type} (p : Value → ParseResult α)
    (pre post : List Value) (v : Value) (e : String)
    (hpre : ∀ u ∈ pre, (p u).isOther = false) (hv : p v = .other e) (i : Nat) :
    itemLoop p i (pre ++ v :: post) = Sum.inr e := by
  induction pre generalizing i with
  | nil => simp [itemLoop, hv]
  | cons u rest ih =>
    have hu : (p u).isOther = false := hpre u (List.mem_cons_self u rest)
    have hrest : ∀ w ∈ rest, (p w).isOther = false :=
      fun w hw => hpre w (List.mem_cons_of_mem u hw)
    cases hp : p u with
    | ok a => simp [itemLoop, hp, ih hrest (i + 1)]
    | verr err => simp [itemLoop, hp, ih hrest (i + 1)]
    | other e2 =>
      rw [hp] at hu
      simp [ParseResult.isOther] at hu

/-- **C1**: for every array schema and array input passing the bounds
checks, every item is validated independently and per-item
`ValidationError` failures do not stop the scan: each such error's
issues are collected with the item's decimal index prepended to their
paths; if any issues were collected, `parse` fails with exactly their
union in item order, otherwise it returns the parsed items in the
original order of the input. -/
theorem array_parse_aggregates_item_issues {α : Type} (s : ArraySchema α) (items : List Value)
    (hmin : checkMin s.minItems items.length = none)
    (hmax : checkMax s.maxItems items.length = none)
    (h : ∀ v ∈ items, (s.itemSchema v).isOther = false) :
    (collectedIssues s.itemSchema 0 items ≠ [] →
      s.parse (Value.vArr items) = .verr ⟨collectedIssues s.itemSchema 0 items⟩) ∧
    (collectedIssues s.itemSchema 0 items = [] →
      s.parse (Value.vArr items) = .ok (items.filterMap (fun v => (s.itemSchema v).okValue))) := by
  have hl := itemLoop_no_other s.itemSchema items h 0
  constructor
  · intro hne
    have hpos : 0 < (collectedIssues s.itemSchema 0 items).length :=
      List.length_pos.mpr hne
    simp [ArraySchema.parse, hmin, hmax, hl, hpos]
  · intro he
    simp [ArraySchema.parse, hmin, hmax, hl, he]

theorem array_parse_aggregates_item_issues_witness :
    (((array BooleanSchema.parse).min 2).max 4).parse
        (Value.vArr [Value.vBool true, Value.vNum 1, Value.vBool false]) =
      ParseResult.verr ⟨[Issue.mk "invalidType" ["1"] "boolean" "number"]⟩ := by
  have h := (array_parse_aggregates_item_issues (((array BooleanSchema.parse).min 2).max 4)
    [Value.vBool true, Value.vNum 1, Value.vBool false]
    (by decide) (by decide) (by decide)).1 (by decide)
  exact h.trans (by decide)

/-- **C2** (amended): with a *nonzero* `minItems` set and input length
below it, `parse` fails with just the `tooShort` issue, regardless of
the item schema; with a *nonzero* `maxItems` set, input length above
it, and the min check not firing, `parse` fails with just the `tooLong`
issue, regardless of the item schema. -/
theorem array_parse_bounds_short_circuit {α : Type} (s : ArraySchema α) (items : List Value) :
    (∀ m, s.minItems = some m → items.length < m →
      s.parse (Value.vArr items) =
        .verr ⟨[Issue.mk "tooShort" [] (toString m) (toString items.length)]⟩) ∧
    (∀ m, s.maxItems = some m → m ≠ 0 → items.length > m →
      checkMin s.minItems items.length = none →
      s.parse (Value.vArr items) =
        .verr ⟨[Issue.mk "tooLong" [] (toString m) (toString items.length)]⟩) := by
  constructor
  · intro m hm hlt
    have hm0 : m ≠ 0 := by omega
    simp [ArraySchema.parse, checkMin, hm, hm0, hlt]
  · intro m hm hm0 hgt hmin
    simp [ArraySchema.parse, hmin, checkMax, hm, hm0, hgt]

theorem array_parse_bounds_short_circuit_witness :
    (((array BooleanSchema.parse).min 2).max 4).parse (Value.vArr []) =
      ParseResult.verr ⟨[Issue.mk "tooShort" [] "2" "0"]⟩ := by
  have h := (array_parse_bounds_short_circuit (((array BooleanSchema.parse).min 2).max 4)
    []).1 2 rfl (by decide)
  exact h.trans (by decide)

/-- **C2** counterexample to the claim as stated: on the schema
`array(boolean).max(0)` the maximum bound *is* set, the input
`[true]` has length strictly greater than it, and yet `parse` succeeds
instead of failing with a `tooLong` issue (the truthiness guard skips
the check for a `0` bound). -/
theorem array_max_zero_counterexample :
    ((array BooleanSchema.parse).max 0).maxItems = some 0 ∧
    0 < (1 : Nat) ∧
    ((array BooleanSchema.parse).max 0).parse (Value.vArr [Value.vBool true]) =
      ParseResult.ok [true] :=
  ⟨rfl, by decide, rfl⟩

/-- **C6**: the boolean schema's parse succeeds exactly on booleans,
returning the input unchanged, and fails on every other input with one
`invalidType` issue with empty path, expected "boolean" and actual the
observed `typeof` tag. -/
theorem boolean_parse_characterisation (obj : Value) :
    (∀ b, BooleanSchema.parse obj = .ok b ↔ obj = Value.vBool b) ∧
    ((∀ b, obj ≠ Value.vBool b) →
      BooleanSchema.parse obj =
        .verr ⟨[Issue.mk "invalidType" [] "boolean" (typeofValue obj)]⟩) := by
  cases obj with
  | vBool b =>
    constructor
    · intro b2
      simp [BooleanSchema.parse]
    · intro h
      exact absurd rfl (h b)
  | vNum n => exact ⟨fun b2 => by simp [BooleanSchema.parse], fun _ => rfl⟩
  | vStr s => exact ⟨fun b2 => by simp [BooleanSchema.parse], fun _ => rfl⟩
  | vNull => exact ⟨fun b2 => by simp [BooleanSchema.parse], fun _ => rfl⟩
  | vUndefined => exact ⟨fun b2 => by simp [BooleanSchema.parse], fun _ => rfl⟩
  | vDate t => exact ⟨fun b2 => by simp [BooleanSchema.parse], fun _ => rfl⟩
  | vArr items => exact ⟨fun b2 => by simp [BooleanSchema.parse], fun _ => rfl⟩
  | vObj => exact ⟨fun b2 => by simp [BooleanSchema.parse], fun _ => rfl⟩

theorem boolean_parse_characterisation_witness :
    BooleanSchema.parse (Value.vStr "x") =
      ParseResult.verr ⟨[Issue.mk "invalidType" [] "boolean" "string"]⟩ :=
  (boolean_parse_characterisation (Value.vStr "x")).2 (fun _ h => Value.noConfusion h)

/-- **C8**: if, with the bounds checks passing, some item's schema
raises a non-`ValidationError` failure (all items before it not doing
so), the array schema's parse propagates that failure unchanged —
no aggregation, no wrapping, no `ValidationError` for other items. -/
theorem array_parse_propagates_other_failures {α : Type} (s : ArraySchema α)
    (pre post : List Value) (v : Value) (e : String)
    (hmin : checkMin s.minItems (pre ++ v :: post).length = none)
    (hmax : checkMax s.maxItems (pre ++ v :: post).length = none)
    (hpre : ∀ u ∈ pre, (s.itemSchema u).isOther = false)
    (hv : s.itemSchema v = .other e) :
    s.parse (Value.vArr (pre ++ v :: post)) = .other e := by
  have hmin2 : checkMin s.minItems (pre.length + (post.length + 1)) = none := by
    simpa using hmin
  have hmax2 : checkMax s.maxItems (pre.length + (post.length + 1)) = none := by
    simpa using hmax
  simp [ArraySchema.parse, hmin2, hmax2,
    itemLoop_first_other s.itemSchema pre post v e hpre hv 0]

theorem array_parse_propagates_other_failures_witness :
    (array boomSchema).parse
        (Value.vArr [Value.vBool true, Value.vNull, Value.vBool false]) =
      ParseResult.other "boom" :=
  array_parse_propagates_other_failures (array boomSchema)
    [Value.vBool true] [Value.vBool false] Value.vNull "boom"
    rfl rfl (by decide) rfl

/-- **C9**: a bound of `0` is skipped entirely by the truthiness guard:
a schema with `minItems = 0` (resp. `maxItems = 0`) parses every input
exactly as the same schema with that bound unset; in particular
`array(boolean).max(0)` and `array(boolean).length(0)` accept arrays of
every length. -/
theorem array_zero_bounds_skipped {α : Type} (s : ArraySchema α) (v : Value) :
    (s.minItems = some 0 →
      s.parse v = (ArraySchema.mk s.itemSchema none s.maxItems).parse v) ∧
    (s.maxItems = some 0 →
      s.parse v = (ArraySchema.mk s.itemSchema s.minItems none).parse v) ∧
    ((array BooleanSchema.parse).max 0).parse
        (Value.vArr [Value.vBool true, Value.vBool false, Value.vBool true]) =
      ParseResult.ok [true, false, true] ∧
    ((array BooleanSchema.parse).length 0).parse
        (Value.vArr [Value.vBool true, Value.vBool false]) =
      ParseResult.ok [true, false] := by
  refine ⟨fun h => ?_, fun h => ?_, rfl, rfl⟩
  · cases v <;> simp [ArraySchema.parse, h, checkMin]
  · cases v <;> simp [ArraySchema.parse, h, checkMax]

theorem array_zero_bounds_skipped_witness :
    ((array BooleanSchema.parse).max 0).parse (Value.vArr [Value.vBool true]) =
      (ArraySchema.mk BooleanSchema.parse none none).parse (Value.vArr [Value.vBool true]) :=
  (array_zero_bounds_skipped ((array BooleanSchema.parse).max 0)
    (Value.vArr [Value.vBool true])).2.1 rfl

/-- **C10**: `length n` sets both bounds to `n` and equals
`min n` followed by `max n`, behaviourally on every input; all three
modifiers keep the item schema and the untouched bound (the receiver
itself is immutable in this pure model). -/
theorem array_length_eq_min_max {α : Type} (s : ArraySchema α) (n : Nat) :
    s.length n = ArraySchema.mk s.itemSchema (some n) (some n) ∧
    s.length n = (s.min n).max n ∧
    (∀ v, (s.length n).parse v = ((s.min n).max n).parse v) ∧
    (s.min n).itemSchema = s.itemSchema ∧
    (s.min n).minItems = some n ∧
    (s.min n).maxItems = s.maxItems ∧
    (s.max n).itemSchema = s.itemSchema ∧
    (s.max n).minItems = s.minItems ∧
    (s.max n).maxItems = some n ∧
    (s.length n).itemSchema = s.itemSchema :=
  ⟨rfl, rfl, fun _ => rfl, rfl, rfl, rfl, rfl, rfl, rfl, rfl⟩

/-- **C7**: the date schema returns a date value unchanged; a string or
number is turned into a date and accepted exactly when the ambient date
construction does not yield the invalid-date sentinel; every other
input, and every rejected string/number, fails with one `invalidType`
issue with expected "date" and actual the input's `typeof` tag. -/
theorem date_parse_characterisation (newDate : StrNum → Option Int) :
    (∀ t, DateSchema.parse newDate (Value.vDate t) = .ok (Value.vDate t)) ∧
    (∀ s t, newDate (Sum.inl s) = some t →
      DateSchema.parse newDate (Value.vStr s) = .ok (Value.vDate (some t))) ∧
    (∀ s, newDate (Sum.inl s) = none →
      DateSchema.parse newDate (Value.vStr s) =
        .verr ⟨[Issue.mk "invalidType" [] "date" (typeofValue (Value.vStr s))]⟩) ∧
    (∀ n t, newDate (Sum.inr n) = some t →
      DateSchema.parse newDate (Value.vNum n) = .ok (Value.vDate (some t))) ∧
    (∀ n, newDate (Sum.inr n) = none →
      DateSchema.parse newDate (Value.vNum n) =
        .verr ⟨[Issue.mk "invalidType" [] "date" (typeofValue (Value.vNum n))]⟩) ∧
    (∀ obj, (∀ t, obj ≠ Value.vDate t) → (∀ s, obj ≠ Value.vStr s) →
      (∀ n, obj ≠ Value.vNum n) →
      DateSchema.parse newDate obj =
        .verr ⟨[Issue.mk "invalidType" [] "date" (typeofValue obj)]⟩) := by
  refine ⟨fun t => rfl, ?_, ?_, ?_, ?_, ?_⟩
  · intro s t h
    simp [DateSchema.parse, h]
  · intro s h
    simp [DateSchema.parse, h]
  · intro n t h
    simp [DateSchema.parse, h]
  · intro n h
    simp [DateSchema.parse, h]
  · intro obj hd hs hn
    cases obj with
    | vDate t => exact absurd rfl (hd t)
    | vStr s => exact absurd rfl (hs s)
    | vNum n => exact absurd rfl (hn n)
    | vBool b => rfl
    | vNull => rfl
    | vUndefined => rfl
    | vArr items => rfl
    | vObj => rfl

theorem date_parse_characterisation_witness :
    DateSchema.parse (fun x => match x with | Sum.inl _ => none | Sum.inr n => some n)
        (Value.vNum 37) = ParseResult.ok (Value.vDate (some 37)) ∧
    DateSchema.parse (fun x => match x with | Sum.inl _ => none | Sum.inr n => some n)
        Value.vNull = ParseResult.verr ⟨[Issue.mk "invalidType" [] "date" "object"]⟩ := by
  have h := date_parse_characterisation
    (fun x => match x with | Sum.inl _ => none | Sum.inr n => some n)
  exact ⟨h.2.2.2.1 37 37 rfl,
    h.2.2.2.2.2 Value.vNull (fun _ hc => Value.noConfusion hc)
      (fun _ hc => Value.noConfusion hc) (fun _ hc => Value.noConfusion hc)⟩

theorem splitOnSlash_ne_nil (cs : List Char) : splitOnSlash cs ≠ [] := by
  cases cs with
  | nil => simp [splitOnSlash]
  | cons c rest =>
    by_cases h : c = '/'
    · simp [splitOnSlash, h]
    · simp only [splitOnSlash, if_neg h]
      cases hs : splitOnSlash rest <;> simp

theorem joinSlash_cons_cons (c : Char) (s : List Char) (ss : List (List Char)) :
    joinSlash ((c :: s) :: ss) = c :: joinSlash (s :: ss) := by
  cases ss with
  | nil => rfl
  | cons s2 ss2 => simp [joinSlash]

theorem joinSlash_splitOnSlash (cs : List Char) : joinSlash (splitOnSlash cs) = cs := by
  induction cs with
  | nil => rfl
  | cons c rest ih =>
    by_cases h : c = '/'
    · subst h
      simp only [splitOnSlash, if_pos rfl]
      cases hs : splitOnSlash rest with
      | nil => exact absurd hs (splitOnSlash_ne_nil rest)
      | cons s ss =>
        rw [hs] at ih
        simpa [joinSlash] using ih
    · simp only [splitOnSlash, if_neg h]
      cases hs : splitOnSlash rest with
      | nil => exact absurd hs (splitOnSlash_ne_nil rest)
      | cons s ss =>
        rw [hs] at ih
        rw [joinSlash_cons_cons, ih]

theorem parseTail_render (cs : List Char) (t : List Char) (o : Bool)
    (h : parseTail cs = some (t, o)) : t ++ (if o then ['?'] else []) = cs := by
  induction cs generalizing t o with
  | nil =>
    simp [parseTail] at h
    obtain ⟨rfl, rfl⟩ := h
    rfl
  | cons c rest ih =>
    simp only [parseTail] at h
    by_cases hq : c = '?'
    · rw [if_pos hq] at h
      by_cases hr : rest = []
      · rw [if_pos hr] at h
        simp at h
        obtain ⟨rfl, rfl⟩ := h
        simp [hq, hr]
      · rw [if_neg hr] at h
        cases h
    · rw [if_neg hq] at h
      by_cases hc : isCoreChar c
      · rw [if_pos hc] at h
        cases hp : parseTail rest with
        | none => rw [hp] at h; cases h
        | some r =>
          obtain ⟨t2, o2⟩ := r
          rw [hp] at h
          simp at h
          obtain ⟨rfl, rfl⟩ := h
          rw [List.cons_append, ih t2 o2 hp]
      · rw [if_neg hc] at h
        cases h

theorem parseCore_render (cs t : List Char) (o : Bool)
    (h : parseCore cs = some (t, o)) : t ++ (if o then ['?'] else []) = cs := by
  cases cs with
  | nil => cases h
  | cons c rest =>
    simp only [parseCore] at h
    by_cases hc : isCoreChar c
    · rw [if_pos hc] at h
      cases hp : parseTail rest with
      | none => rw [hp] at h; cases h
      | some r =>
        obtain ⟨t2, o2⟩ := r
        rw [hp] at h
        simp at h
        obtain ⟨rfl, rfl⟩ := h
        rw [List.cons_append, parseTail_render rest t2 o2 hp]
    · rw [if_neg hc] at h
      cases h

theorem parseSegment_render (s : List Char) (seg : Segment)
    (h : parseSegment s = some seg) : Segment.render seg = '/' :: s := by
  cases s with
  | nil => cases h
  | cons c rest =>
    simp only [parseSegment] at h
    by_cases hc : c = ':'
    · rw [if_pos hc] at h
      subst hc
      cases hp : parseCore rest with
      | none => rw [hp] at h; cases h
      | some r =>
        obtain ⟨t, o⟩ := r
        rw [hp] at h
        simp at h
        subst h
        show Segment.render (Segment.param t o) = '/' :: ':' :: rest
        simp only [Segment.render]
        rw [parseCore_render rest t o hp]
    · rw [if_neg hc] at h
      cases hp : parseCore (c :: rest) with
      | none => rw [hp] at h; cases h
      | some r =>
        obtain ⟨t, o⟩ := r
        rw [hp] at h
        simp at h
        subst h
        show Segment.render (Segment.lit t o) = '/' :: c :: rest
        simp only [Segment.render]
        rw [parseCore_render (c :: rest) t o hp]

theorem segmentsOf_render (pattern : List Char) (parts : List (List Char))
    (segs : List Segment) (h : segmentsOf pattern parts = .ok segs) :
    segs.map Segment.render = parts.map (fun s => '/' :: s) := by
  induction parts generalizing segs with
  | nil =>
    simp [segmentsOf] at h
    subst h
    rfl
  | cons part rest ih =>
    simp only [segmentsOf] at h
    cases hp : parseSegment part with
    | none => rw [hp] at h; cases h
    | some seg =>
      rw [hp] at h
      cases hr : segmentsOf pattern rest with
      | error e => rw [hr] at h; cases h
      | ok segs2 =>
        rw [hr] at h
        simp at h
        subst h
        simp [parseSegment_render part seg hp, ih segs2 hr]

theorem flatten_slash_parts (parts : List (List Char)) (h : parts ≠ []) :
    (parts.map (fun s => '/' :: s)).flatten = '/' :: joinSlash parts := by
  induction parts with
  | nil => exact absurd rfl h
  | cons s ss ih =>
    cases ss with
    | nil => simp [joinSlash]
    | cons s2 ss2 =>
      rw [List.map_cons, List.flatten_cons, ih (by simp)]
      simp [joinSlash]

/-- **C5**: every pattern accepted by Path construction round-trips:
`toString` of the compiled Path is exactly the original pattern. -/
theorem path_toString_roundtrip (pattern : List Char) (p : Path)
    (h : Path.build pattern = .ok p) : p.toString = pattern := by
  cases pattern with
  | nil => simp [Path.build] at h
  | cons c rest =>
    simp only [Path.build] at h
    by_cases hc : c = '/'
    · rw [if_pos hc] at h
      cases hs : segmentsOf (c :: rest) (splitOnSlash rest) with
      | error e => rw [hs] at h; cases h
      | ok segs =>
        rw [hs] at h
        by_cases ho : optionalOk segs = true
        · simp [ho] at h
          subst h
          show (Path.mk segs).toString = c :: rest
          unfold Path.toString
          rw [segmentsOf_render _ _ _ hs,
            flatten_slash_parts _ (splitOnSlash_ne_nil rest),
            joinSlash_splitOnSlash, hc]
        · simp [ho] at h
    · rw [if_neg hc] at h; cases h

theorem path_toString_roundtrip_witness :
    (Path.mk [Segment.lit "abc".data false, Segment.param "id".data true]).toString =
      "/abc/:id?".data :=
  path_toString_roundtrip "/abc/:id?".data
    (Path.mk [Segment.lit "abc".data false, Segment.param "id".data true]) rfl

theorem matchSegs_captures (segs : List Segment) :
    ∀ (cand : List (List Char)) (res : List (List Char × List Char)),
      matchSegs segs cand = some res → res = (segs.zip cand).filterMap captureOf := by
  induction segs with
  | nil =>
    intro cand res h
    cases cand with
    | nil =>
      simp [matchSegs] at h
      subst h
      rfl
    | cons c cs => cases h
  | cons s ss ih =>
    intro cand res h
    cases cand with
    | nil =>
      simp only [matchSegs] at h
      by_cases ho : s.optional = true
      · rw [if_pos ho] at h
        simp at h
        subst h
        rfl
      · rw [if_neg ho] at h
        cases h
    | cons c cs =>
      cases s with
      | lit t o =>
        simp only [matchSegs] at h
        by_cases ht : t = c
        · rw [if_pos ht] at h
          simp [List.zip_cons_cons, List.filterMap_cons, captureOf, ih cs res h]
        · rw [if_neg ht] at h
          cases h
      | param n o =>
        simp only [matchSegs] at h
        cases hm : matchSegs ss cs with
        | none => rw [hm] at h; cases h
        | some r =>
          rw [hm] at h
          simp at h
          subst h
          simp [List.zip_cons_cons, List.filterMap_cons, captureOf, ih cs r hm]

/-- **C3**: on success the matcher's mapping contains exactly the
parameters actually reached (each paired with the candidate text it
consumed; unreached optional parameters are absent); and for the
compiled `Path("/abc/:id?")`: matching "/abc" succeeds with the empty
mapping, "/abc/def" succeeds capturing id="def", and "/abc/def/ghi"
does not match. -/
theorem path_match_captures_reached_params :
    (∀ (segs : List Segment) (cand : List (List Char))
        (res : List (List Char × List Char)),
      matchSegs segs cand = some res → res = (segs.zip cand).filterMap captureOf) ∧
    Path.build "/abc/:id?".data =
      .ok (Path.mk [Segment.lit "abc".data false, Segment.param "id".data true]) ∧
    (Path.mk [Segment.lit "abc".data false, Segment.param "id".data true]).matchPath
      "/abc".data = some [] ∧
    (Path.mk [Segment.lit "abc".data false, Segment.param "id".data true]).matchPath
      "/abc/def".data = some [("id".data, "def".data)] ∧
    (Path.mk [Segment.lit "abc".data false, Segment.param "id".data true]).matchPath
      "/abc/def/ghi".data = none :=
  ⟨matchSegs_captures, rfl, rfl, rfl, rfl⟩

theorem path_match_captures_reached_params_witness :
    ([("id".data, "def".data)] : List (List Char × List Char)) =
      (([Segment.param "id".data true]).zip ["def".data]).filterMap captureOf :=
  path_match_captures_reached_params.1 [Segment.param "id".data true]
    ["def".data] [("id".data, "def".data)] rfl

/-- **C4**: a pattern whose parsed segment sequence violates the
optional-ordering invariant fails construction with the fixed
optional-ordering error; `withPrefix` re-validates the combined
sequence against the same invariant; in particular both "/:id?/test"
and "/:id?/:test" fail construction with that error. -/
theorem path_optional_ordering_fatal :
    (∀ (rest : List Char) (segs : List Segment),
      segmentsOf ('/' :: rest) (splitOnSlash rest) = .ok segs →
      optionalOk segs = false →
      Path.build ('/' :: rest) = .error (PathError.optionalOrdering ('/' :: rest))) ∧
    (∀ (p q : Path) (pre : List Char),
      Path.build pre = .ok q →
      optionalOk (q.segments ++ p.segments) = false →
      Path.withPrefix p pre =
        .error (PathError.optionalOrdering
          (Path.toString (Path.mk (q.segments ++ p.segments))))) ∧
    Path.build "/:id?/test".data =
      .error (PathError.optionalOrdering "/:id?/test".data) ∧
    Path.build "/:id?/:test".data =
      .error (PathError.optionalOrdering "/:id?/:test".data) := by
  refine ⟨?_, ?_, rfl, rfl⟩
  · intro rest segs hs ho
    simp [Path.build, hs, ho]
  · intro p q pre hq ho
    simp [Path.withPrefix, hq, ho]

theorem path_optional_ordering_fatal_witness :
    Path.build ('/' :: ":id?/a".data) =
      .error (PathError.optionalOrdering ('/' :: ":id?/a".data)) :=
  path_optional_ordering_fatal.1 ":id?/a".data
    [Segment.param "id".data true, Segment.lit "a".data false] rfl rfl

end YCore
